import Mathlib

/-!
Verification development for the Missouri healthcare facility redundancy
analyzer (`src/analysis/redundancy_analysis.py`, function
`analyze_service_redundancy`).

The analyzer is shallowly embedded in Lean:

* Coordinate values read from the raw data frames are modelled by `FVal`,
  which is either a rational number or `nan` (a missing / non-finite float).
  The only float operations the inclusion filters perform are the Python
  comparison `x != 0` (which is `True` for NaN) and `pd.isna`; both are
  embedded directly.
* The pairwise haversine distance computation is abstracted to an arbitrary
  function `d : Nat → Nat → ℚ` giving the distance in miles between the
  facilities at positions `i` and `j` of the input sequence.  Every claim
  about the analyzer downstream of the distance computation is proved for
  every such `d`; concrete counterexamples use one-dimensional
  configurations (facilities on the equator, where the haversine distance
  is exactly `3959 · |Δlongitude in radians|`, i.e. exactly proportional to
  the coordinate difference).
* The numpy distance matrix is embedded as `distMatrix`, a left fold over
  the exact sequence of index pairs `(i, j)`, `i < j`, visited by the two
  nested Python loops (`for i in range(n): for j in range(i+1, n)`), each
  step writing the freshly computed distance to the `(i,j)` and `(j,i)`
  entries.
* The remaining pipeline (neighbor counting, ranking via
  `nlargest(15, 'overlaps')`, greedy consolidation clustering, the pandas
  `mode()[0]` dominant-city computation, the redundancy score and the JSON
  report's `head(10)` top list) is embedded in `analyze`.
  `pandas.DataFrame.nlargest(k, col)` with the default `keep='first'`
  returns the rows ordered by descending column value, rows with equal
  values kept in their original positional order; this is embedded as a
  merge sort by the total order "larger value first, ties by smaller
  original index first".
* On an empty facility list the Python script raises: `pd.DataFrame([])`
  has no columns, so `facilities_df[['lat', 'lon']]` at line 121 raises a
  `KeyError` before any further computation.  `analyze` therefore returns
  `none` for the empty input and `some` of the full result otherwise.
-/

/-- A scalar coordinate value as read from the source data frames: either a
genuine (rational) number or NaN, the pandas missing value.  Python float
semantics relevant here: `nan != 0` evaluates to `True`. -/
inductive FVal where
  | nan : FVal
  | num : ℚ → FVal
deriving DecidableEq

/-- Python `x != 0` on a float: `True` for NaN and for every nonzero number. -/
def FVal.pyNeZero : FVal → Bool
  | FVal.nan => true
  | FVal.num q => decide (q ≠ 0)

/-- Python `pd.isna(x)`. -/
def FVal.isna : FVal → Bool
  | FVal.nan => true
  | FVal.num _ => false

/-- A raw input record's coordinates, after the per-source column probing
(`.get('latitude', 0)` etc., which is pure column-name normalization). -/
structure RawRecord where
  lat : FVal
  lon : FVal
deriving DecidableEq

/-- Inclusion filter for hospital records (line 75 of the source):
`if lat != 0 and lon != 0`. -/
def hospitalAccepts (r : RawRecord) : Bool :=
  r.lat.pyNeZero && r.lon.pyNeZero

/-- Inclusion filter for RHC records (line 89 of the source):
`if lat != 0 and lon != 0 and not pd.isna(lat) and not pd.isna(lon)`. -/
def rhcAccepts (r : RawRecord) : Bool :=
  r.lat.pyNeZero && r.lon.pyNeZero && !r.lat.isna && !r.lon.isna

/-- Inclusion filter for FQHC records (line 106 of the source):
`if lat != 0 and lon != 0`. -/
def fqhcAccepts (r : RawRecord) : Bool :=
  r.lat.pyNeZero && r.lon.pyNeZero

/-- A facility as it enters the analysis proper: only the category tag and
the city label matter downstream of the distance computation. -/
structure Facility where
  ftype : String
  city : String
deriving DecidableEq

/-- The exact sequence of index pairs at which the source invokes
`haversine_distance` (lines 126-131): `for i in range(n): for j in
range(i+1, n)`. -/
def pairSequence (n : Nat) : List (Nat × Nat) :=
  (List.range n).flatMap (fun i => (List.range' (i + 1) (n - (i + 1))).map (fun j => (i, j)))

/-- The numpy distance matrix (lines 125-133): start from the zero matrix;
for each pair `(i, j)` of `pairSequence` in order, compute the distance
once and write it to both the `(i,j)` and the `(j,i)` entry. -/
def distMatrix (d : Nat → Nat → ℚ) (n : Nat) : Nat → Nat → ℚ :=
  (pairSequence n).foldl
    (fun M p => fun a b => if (a, b) = p ∨ (a, b) = (p.2, p.1) then d p.1 p.2 else M a b)
    (fun _ _ => 0)

/-- The list of indices `j` counted as neighbors of facility `i`
(lines 149-156): `for j in range(n): if i != j and distances[i][j] <= R`. -/
def neighborList (M : Nat → Nat → ℚ) (R : ℚ) (n i : Nat) : List Nat :=
  (List.range n).filter (fun j => decide (i ≠ j ∧ M i j ≤ R))

/-- `overlap_count` of facility `i`: the number of other facilities within
the service radius. -/
def overlapsCount (M : Nat → Nat → ℚ) (R : ℚ) (n i : Nat) : Nat :=
  (neighborList M R n i).length

/-- The `overlapping` list of line 150/156: the category tags of the
neighbors of `i`, in scan order; the per-category breakdown
(`pd.Series(overlapping).value_counts()`) counts occurrences in it. -/
def overlapping (types : Nat → String) (M : Nat → Nat → ℚ) (R : ℚ) (n i : Nat) : List String :=
  (neighborList M R n i).map types

/-- Sum of all facilities' neighbor counts (`facilities_df['overlaps'].sum()`). -/
def sumNeighborCounts (M : Nat → Nat → ℚ) (R : ℚ) (n : Nat) : Nat :=
  ((List.range n).map (fun i => overlapsCount M R n i)).sum

/-- The redundancy score of lines 233-234:
`(overlaps.sum() / 2) / len(facilities_df)`. -/
def redundancyScore (M : Nat → Nat → ℚ) (n : Nat) : ℚ :=
  ((sumNeighborCounts M 20 n : ℚ) / 2) / (n : ℚ)

/-- The number of unordered pairs of facilities at distance at most `R`
(spec-side notion used by the double-counting identity of §8). -/
def unorderedPairsWithin (M : Nat → Nat → ℚ) (R : ℚ) (n : Nat) : Nat :=
  (((Finset.range n) ×ˢ (Finset.range n)).filter
    (fun p => p.1 < p.2 ∧ M p.1 p.2 ≤ R)).card

/-- The inner scan of the consolidation loop (lines 255-258): walk the
remaining indices `js` in order; each `j` distinct from the seed, not yet
visited, and within radius `r` of the seed is appended to the cluster and
marked visited immediately. -/
def addNearby (M : Nat → Nat → ℚ) (r : ℚ) (i : Nat) :
    List Nat → List Nat → List Nat → List Nat × List Nat
  | [], cluster, visited => (cluster, visited)
  | j :: js, cluster, visited =>
      if j ≠ i ∧ j ∉ visited ∧ M i j ≤ r then
        addNearby M r i js (cluster ++ [j]) (j :: visited)
      else
        addNearby M r i js cluster visited

/-- The greedy consolidation clustering of lines 246-261: walk the seed
list; each unvisited seed `i` starts a cluster `[i]`, is marked visited,
and absorbs every unvisited facility within radius `r`; a finished cluster
is kept only when `len(cluster) > 2`. -/
def greedyClusters (M : Nat → Nat → ℚ) (r : ℚ) (n : Nat) :
    List Nat → List Nat → List (List Nat) → List (List Nat)
  | [], _, acc => acc
  | i :: seeds, visited, acc =>
      if i ∈ visited then greedyClusters M r n seeds visited acc
      else
        let p := addNearby M r i (List.range n) [i] (i :: visited)
        greedyClusters M r n seeds p.2 (if 2 < p.1.length then acc ++ [p.1] else acc)

/-- Largest multiplicity of any value in `l` (the count of a pandas mode). -/
def maxFreq (l : List String) : Nat :=
  (l.map (fun c => l.count c)).foldr max 0

/-- Python string comparison `a < b` on the underlying character lists:
lexicographic by Unicode code point, a strict prefix sorting first. -/
def charListLtB : List Char → List Char → Bool
  | [], [] => false
  | [], _ :: _ => true
  | _ :: _, [] => false
  | c :: cs, d :: ds => c.toNat < d.toNat || (c.toNat = d.toNat && charListLtB cs ds)

/-- Python string comparison `a < b`, the order by which pandas sorts the
values returned by `Series.mode`. -/
def strLtB (a b : String) : Bool :=
  charListLtB a.data b.data

/-- Least element of a list of strings in the Python string order. -/
def minString? : List String → Option String
  | [] => none
  | c :: cs =>
      match minString? cs with
      | none => some c
      | some m => if strLtB m c then some m else some c

/-- Line 268 of the source: `s.mode()[0] if len(s.mode()) > 0 else
'Multiple'`.  `pandas.Series.mode` returns the values of largest
multiplicity sorted in ascending (for Python strings: code-point
lexicographic) order, so its first element is the least value of largest
multiplicity in the Python string order. -/
def dominantCity (l : List String) : String :=
  match minString? (l.filter (fun c => decide (l.count c = maxFreq l))) with
  | some c => c
  | none => "Multiple"

/-- City label of facility `i` (out-of-range reads never occur in the
pipeline). -/
def cityOf (fs : List Facility) (i : Nat) : String :=
  (fs.getD i { ftype := "", city := "" }).city

/-- All facility indices ordered as `nlargest(·, 'overlaps')` orders rows:
descending neighbor count, ties kept in original positional order
(`keep='first'`), i.e. sorted by the total order "larger count first, then
smaller index first". -/
def rankedAll (counts : Nat → Nat) (n : Nat) : List Nat :=
  (List.range n).insertionSort
    (fun i j => counts j < counts i ∨ (counts i = counts j ∧ i ≤ j))

/-- Line 243: `high_overlap = facilities_df[facilities_df['overlaps'] >= 5]`;
`iterrows()` then yields these rows in original positional order. -/
def seedList (counts : Nat → Nat) (n : Nat) : List Nat :=
  (List.range n).filter (fun i => decide (5 ≤ counts i))

/-- The outputs of one run of `analyze_service_redundancy` that the claims
are about.  `top_redundant` is the `nlargest(15, 'overlaps')` index list of
line 193, `report_top` the index list behind the JSON report's
`top_redundant_facilities` entry of line 309 (which applies `.head(10)`),
`cluster_cities` the dominant city of each of the at most five clusters the
report loop of line 266 processes (`consolidation_opportunities[:5]`). -/
structure AnalysisResult where
  overlaps : List Nat
  redundancy_score : ℚ
  top_redundant : List Nat
  report_top : List Nat
  clusters : List (List Nat)
  cluster_cities : List String
deriving DecidableEq

/-- The consolidation radius of line 256, `SERVICE_RADIUS/2` with
`SERVICE_RADIUS = 20`: the exact value `10` (exact also in the source's
float arithmetic); `consolidationRadius_eq` below records the relation. -/
def consolidationRadius : ℚ := 10

theorem consolidationRadius_eq : consolidationRadius = 20 / 2 := by
  norm_num [consolidationRadius]

/-- The analyzer pipeline downstream of data loading.  On the empty
facility list the script raises (`facilities_df[['lat', 'lon']]` is a
`KeyError` on a column-less empty frame), embedded as `none`. -/
def analyze (fs : List Facility) (d : Nat → Nat → ℚ) : Option AnalysisResult :=
  if fs.isEmpty then none
  else
    let n := fs.length
    let M := distMatrix d n
    let counts := fun i => overlapsCount M 20 n i
    let clusters := greedyClusters M consolidationRadius n (seedList counts n) [] []
    some
      { overlaps := (List.range n).map counts
        redundancy_score := redundancyScore M n
        top_redundant := (rankedAll counts n).take 15
        report_top := ((rankedAll counts n).take 15).take 10
        clusters := clusters
        cluster_cities := (clusters.take 5).map (fun c => dominantCity (c.map (cityOf fs))) }

/-- The cluster grown from seed `i` as the spec describes it: the cluster
contains `i`, and every other not-yet-visited facility within radius `r`
of `i` (scanned in index order) is added to it. -/
def specClusterOf (M : Nat → Nat → ℚ) (r : ℚ) (n i : Nat) (visited : List Nat) : List Nat :=
  i :: (List.range n).filter (fun j => decide (j ≠ i ∧ j ∉ visited ∧ M i j ≤ r))

/-- The clustering algorithm as the spec states it, parametric in the seed
order: maintain a visited set; each not-yet-visited seed starts a cluster,
which absorbs all not-yet-visited facilities within `r`, all of them
becoming visited; clusters with fewer than 3 total members are discarded. -/
def specGreedy (M : Nat → Nat → ℚ) (r : ℚ) (n : Nat) :
    List Nat → List Nat → List (List Nat)
  | [], _ => []
  | i :: seeds, visited =>
      if i ∈ visited then specGreedy M r n seeds visited
      else
        let c := specClusterOf M r n i visited
        (if 3 ≤ c.length then [c] else []) ++ specGreedy M r n seeds (visited ++ c)

/-- The seed sequence as the claim states it: the facilities with neighbor
count at least 5, in ranked (descending neighbor count) order. -/
def specSeedsRanked (counts : Nat → Nat) (n : Nat) : List Nat :=
  (rankedAll counts n).filter (fun i => decide (5 ≤ counts i))

/-- Dominant city as the claim states it: the most frequent city label,
ties broken in favor of the label first encountered in iteration order. -/
def dominantCitySpec (l : List String) : String :=
  match l.find? (fun c => decide (l.count c = maxFreq l)) with
  | some c => c
  | none => "Multiple"

/-- Distance oracle given by an explicit table of pairwise distances in
miles.  Concrete counterexamples place facilities at mile marks along the
equator, where the haversine distance of the source is exactly
`3959 · |Δlongitude in radians|`, i.e. exactly the difference of the mile
marks; the tables list those differences. -/
def tableD (rows : List (List ℚ)) : Nat → Nat → ℚ :=
  fun i j => (rows.getD i []).getD j 0

theorem fval_num_zero_not_pyNeZero (q : ℚ) (h : q = 0) : (FVal.num q).pyNeZero = false := by
  subst h; simp [FVal.pyNeZero]

theorem mem_pairSequence (n a b : Nat) :
    (a, b) ∈ pairSequence n ↔ a < b ∧ b < n := by
  simp only [pairSequence, List.mem_flatMap, List.mem_map, List.mem_range]
  constructor
  · rintro ⟨i, hi, j, hj, hij⟩
    rw [List.mem_range'_1] at hj
    cases hij
    exact ⟨by omega, by omega⟩
  · rintro ⟨h1, h2⟩
    exact ⟨a, by omega, b, by rw [List.mem_range'_1]; omega, rfl⟩

theorem nodup_pairSequence (n : Nat) : (pairSequence n).Nodup := by
  rw [pairSequence, List.nodup_flatMap]
  constructor
  · intro i _
    exact (List.nodup_range' _ _).map (fun a b h => by cases h; rfl)
  · apply List.Pairwise.imp ?_ (List.nodup_range n)
    intro a b hab x hx hy
    simp only [List.mem_map] at hx hy
    obtain ⟨j1, _, rfl⟩ := hx
    obtain ⟨j2, _, e⟩ := hy
    cases e
    exact hab rfl

theorem foldl_upd (d : Nat → Nat → ℚ) (ps : List (Nat × Nat)) (hps : ∀ p ∈ ps, p.1 < p.2)
    (M₀ : Nat → Nat → ℚ) (a b : Nat) :
    (ps.foldl (fun M p => fun x y => if (x, y) = p ∨ (x, y) = (p.2, p.1) then d p.1 p.2 else M x y) M₀) a b
      = if (a, b) ∈ ps then d a b else if (b, a) ∈ ps then d b a else M₀ a b := by
  induction ps generalizing M₀ with
  | nil => simp
  | cons p t ih =>
      obtain ⟨u, v⟩ := p
      have hp : u < v := hps (u, v) (List.mem_cons_self _ t)
      have ht : ∀ q ∈ t, q.1 < q.2 := fun q hq => hps q (List.mem_cons_of_mem _ hq)
      rw [List.foldl_cons, ih ht]
      by_cases hab : (a, b) ∈ t
      · simp [hab, List.mem_cons]
      · by_cases hba : (b, a) ∈ t
        · have h1 : (a, b) ≠ (u, v) := by
            intro h
            simp only [Prod.mk.injEq] at h
            have h2 := ht (b, a) hba
            simp only at h2
            omega
          simp [hab, hba, List.mem_cons, h1]
        · by_cases hab2 : (a, b) = (u, v)
          · simp only [Prod.mk.injEq] at hab2
            obtain ⟨rfl, rfl⟩ := hab2
            simp [hab, hba, List.mem_cons]
          · by_cases hba2 : (b, a) = (u, v)
            · simp only [Prod.mk.injEq] at hba2
              obtain ⟨rfl, rfl⟩ := hba2
              have hne : a ≠ b := by omega
              simp [hab, hba, List.mem_cons, hne, Prod.mk.injEq]
            · have h1 : ¬(a = v ∧ b = u) := by
                intro h
                apply hba2
                simp [Prod.mk.injEq, h.1, h.2]
              simp only [List.mem_cons, hab, hba, hab2, hba2, or_false, if_neg]
              simp [Prod.mk.injEq, h1, hab2]

theorem distMatrix_apply (d : Nat → Nat → ℚ) (n a b : Nat) :
    distMatrix d n a b =
      if a < b ∧ b < n then d a b else if b < a ∧ a < n then d b a else 0 := by
  have hps : ∀ p ∈ pairSequence n, p.1 < p.2 :=
    fun p hp => by
      obtain ⟨x, y⟩ := p
      exact ((mem_pairSequence n x y).mp hp).1
  rw [distMatrix, foldl_upd d _ hps]
  simp only [mem_pairSequence]

theorem distMatrix_diag (d : Nat → Nat → ℚ) (n a : Nat) : distMatrix d n a a = 0 := by
  simp [distMatrix_apply]

theorem distMatrix_symm (d : Nat → Nat → ℚ) (n a b : Nat) :
    distMatrix d n a b = distMatrix d n b a := by
  rw [distMatrix_apply, distMatrix_apply]
  rcases Nat.lt_trichotomy a b with h | h | h
  · by_cases hb : b < n <;> simp [h, hb, Nat.lt_asymm h]
  · subst h
    simp
  · by_cases ha : a < n <;> simp [h, ha, Nat.lt_asymm h]

theorem countP_eq_one_of_nodup_mem {α : Type} [DecidableEq α] {l : List α} {a : α}
    (hnd : l.Nodup) (ha : a ∈ l) : l.countP (fun x => decide (x = a)) = 1 := by
  induction l with
  | nil => cases ha
  | cons b t ih =>
      rw [List.countP_cons]
      rcases List.mem_cons.mp ha with rfl | hat
      · have hbt : a ∉ t := (List.nodup_cons.mp hnd).1
        have hz : t.countP (fun x => decide (x = a)) = 0 := by
          rw [List.countP_eq_zero]
          intro x hx
          simp only [decide_eq_true_eq]
          rintro rfl
          exact hbt hx
        simp [hz]
      · have hba : b ≠ a := by
          rintro rfl
          exact (List.nodup_cons.mp hnd).1 hat
        have ihh := ih (List.nodup_cons.mp hnd).2 hat
        simp [ihh, hba]

theorem count_pairSequence (n i j : Nat) (h1 : i < j) (h2 : j < n) :
    (pairSequence n).countP (fun p => decide (p = (i, j))) = 1 :=
  countP_eq_one_of_nodup_mem (nodup_pairSequence n) ((mem_pairSequence n i j).mpr ⟨h1, h2⟩)

/-- C4: for every ordered input of `n` facilities, the distance function is
invoked exactly at the pairs of `pairSequence n`, hence exactly once per
unordered pair `i < j < n`; its result is stored at `(i,j)` and mirrored to
`(j,i)`; the resulting matrix is symmetric with zero diagonal. -/
theorem distance_matrix_mirrored_once (d : Nat → Nat → ℚ) (n i j : Nat)
    (hij : i < j) (hj : j < n) :
    (pairSequence n).countP (fun p => decide (p = (i, j))) = 1 ∧
    (∀ p ∈ pairSequence n, p.1 < p.2 ∧ p.2 < n) ∧
    distMatrix d n i j = d i j ∧
    distMatrix d n j i = d i j ∧
    (∀ a, distMatrix d n a a = 0) ∧
    (∀ a b, distMatrix d n a b = distMatrix d n b a) := by
  refine ⟨count_pairSequence n i j hij hj, ?_, ?_, ?_, fun a => distMatrix_diag d n a,
    fun a b => distMatrix_symm d n a b⟩
  · intro p hp
    obtain ⟨x, y⟩ := p
    exact (mem_pairSequence n x y).mp hp
  · rw [distMatrix_apply]
    simp [hij, hj]
  · rw [distMatrix_apply]
    simp [hij, hj, Nat.lt_asymm hij]

theorem distance_matrix_mirrored_once_witness :
    (pairSequence 2).countP (fun p => decide (p = (0, 1))) = 1 ∧
    (∀ p ∈ pairSequence 2, p.1 < p.2 ∧ p.2 < 2) ∧
    distMatrix (tableD [[0, 8], [8, 0]]) 2 0 1 = tableD [[0, 8], [8, 0]] 0 1 ∧
    distMatrix (tableD [[0, 8], [8, 0]]) 2 1 0 = tableD [[0, 8], [8, 0]] 0 1 ∧
    (∀ a, distMatrix (tableD [[0, 8], [8, 0]]) 2 a a = 0) ∧
    (∀ a b, distMatrix (tableD [[0, 8], [8, 0]]) 2 a b = distMatrix (tableD [[0, 8], [8, 0]]) 2 b a) :=
  distance_matrix_mirrored_once (tableD [[0, 8], [8, 0]]) 2 0 1 (by decide) (by decide)

theorem mem_neighborList (M : Nat → Nat → ℚ) (R : ℚ) (n i j : Nat) :
    j ∈ neighborList M R n i ↔ j < n ∧ i ≠ j ∧ M i j ≤ R := by
  simp [neighborList, List.mem_filter, List.mem_range]

theorem length_filter_range_card (P : Nat → Prop) [DecidablePred P] (n : Nat) :
    ((List.range n).filter (fun a => decide (P a))).length = ((Finset.range n).filter P).card := by
  induction n with
  | zero => simp
  | succ m ih =>
      rw [List.range_succ, Finset.range_succ, List.filter_append, Finset.filter_insert]
      by_cases h : P m
      · simp [h, List.length_append, ih, Finset.card_insert_of_not_mem]
      · simp [h, ih]

theorem overlapsCount_eq_card (M : Nat → Nat → ℚ) (R : ℚ) (n i : Nat) :
    overlapsCount M R n i = ((Finset.range n).filter (fun j => i ≠ j ∧ M i j ≤ R)).card :=
  length_filter_range_card (fun j => i ≠ j ∧ M i j ≤ R) n

theorem sum_map_range_eq_sum (n : Nat) (f : Nat → Nat) :
    ((List.range n).map f).sum = ∑ i ∈ Finset.range n, f i := by
  induction n with
  | zero => simp
  | succ m ih =>
      rw [List.range_succ, List.map_append, List.sum_append, Finset.sum_range_succ, ih]
      simp

theorem sumNeighborCounts_eq_twice_pairs (M : Nat → Nat → ℚ) (R : ℚ) (n : Nat)
    (hsym : ∀ a b, a < n → b < n → M a b = M b a) :
    sumNeighborCounts M R n = 2 * unorderedPairsWithin M R n := by
  classical
  set T := ((Finset.range n) ×ˢ (Finset.range n)).filter
    (fun p => p.1 ≠ p.2 ∧ M p.1 p.2 ≤ R) with hT
  have hmemT : ∀ p : Nat × Nat, p ∈ T ↔ p.1 < n ∧ p.2 < n ∧ p.1 ≠ p.2 ∧ M p.1 p.2 ≤ R := by
    intro p
    rw [hT]
    simp only [Finset.mem_filter, Finset.mem_product, Finset.mem_range]
    tauto
  have hfib : ∀ x ∈ T, x.1 ∈ Finset.range n := by
    intro x hx
    rw [hmemT] at hx
    exact Finset.mem_range.mpr hx.1
  have h1 : T.card = ∑ i ∈ Finset.range n, overlapsCount M R n i := by
    rw [Finset.card_eq_sum_card_fiberwise hfib]
    apply Finset.sum_congr rfl
    intro i hi
    rw [overlapsCount_eq_card]
    refine Finset.card_bij' (fun p _ => p.2) (fun j _ => (i, j)) ?_ ?_ ?_ ?_
    · intro p hp
      rw [Finset.mem_filter, hmemT] at hp
      obtain ⟨⟨_, h2, hne, hle⟩, h5⟩ := hp
      rw [Finset.mem_filter, Finset.mem_range]
      subst h5
      exact ⟨h2, hne, hle⟩
    · intro j hj
      rw [Finset.mem_filter, Finset.mem_range] at hj
      obtain ⟨hjn, hne, hle⟩ := hj
      rw [Finset.mem_filter, hmemT]
      exact ⟨⟨Finset.mem_range.mp hi, hjn, hne, hle⟩, rfl⟩
    · intro p hp
      rw [Finset.mem_filter] at hp
      obtain ⟨_, h5⟩ := hp
      obtain ⟨a, b⟩ := p
      simp only at h5
      subst h5
      rfl
    · intro j _
      rfl
  have hUU : T.filter (fun p => p.1 < p.2)
      = ((Finset.range n) ×ˢ (Finset.range n)).filter
          (fun p => p.1 < p.2 ∧ M p.1 p.2 ≤ R) := by
    ext p
    rw [Finset.mem_filter, hmemT]
    simp only [Finset.mem_filter, Finset.mem_product, Finset.mem_range]
    constructor
    · rintro ⟨⟨h1, h2, _, hle⟩, hlt⟩
      exact ⟨⟨h1, h2⟩, hlt, hle⟩
    · rintro ⟨⟨h1, h2⟩, hlt, hle⟩
      exact ⟨⟨h1, h2, Nat.ne_of_lt hlt, hle⟩, hlt⟩
  have hLU : (T.filter (fun p => ¬ p.1 < p.2)).card
      = (T.filter (fun p => p.1 < p.2)).card := by
    refine Finset.card_bij' (fun p _ => (p.2, p.1)) (fun p _ => (p.2, p.1)) ?_ ?_ ?_ ?_
    · intro p hp
      rw [Finset.mem_filter, hmemT] at hp
      obtain ⟨⟨h1, h2, hne, hle⟩, hnlt⟩ := hp
      have hlt : p.2 < p.1 := by omega
      rw [Finset.mem_filter, hmemT]
      refine ⟨⟨h2, h1, Nat.ne_of_lt hlt, ?_⟩, hlt⟩
      rw [hsym p.2 p.1 h2 h1]
      exact hle
    · intro p hp
      rw [Finset.mem_filter, hmemT] at hp
      obtain ⟨⟨h1, h2, hne, hle⟩, hlt⟩ := hp
      have key : (p.2, p.1) ∈ T.filter (fun q => ¬ q.1 < q.2) := by
        rw [Finset.mem_filter, hmemT]
        refine ⟨⟨h2, h1, fun h => hne h.symm, ?_⟩, by omega⟩
        rw [hsym p.2 p.1 h2 h1]
        exact hle
      exact key
    · intro p _
      rfl
    · intro p _
      rfl
  have hsplit := Finset.filter_card_add_filter_neg_card_eq_card
    (s := T) (p := fun p => p.1 < p.2)
  rw [sumNeighborCounts, sum_map_range_eq_sum, ← h1, ← hsplit, hLU, hUU]
  rw [unorderedPairsWithin]
  omega

theorem greedyClusters_nil (M : Nat → Nat → ℚ) (r : ℚ) (n : Nat) (v : List Nat)
    (acc : List (List Nat)) : greedyClusters M r n [] v acc = acc := rfl

theorem greedyClusters_cons (M : Nat → Nat → ℚ) (r : ℚ) (n i : Nat) (t v : List Nat)
    (acc : List (List Nat)) :
    greedyClusters M r n (i :: t) v acc =
      if i ∈ v then greedyClusters M r n t v acc
      else
        greedyClusters M r n t (addNearby M r i (List.range n) [i] (i :: v)).2
          (if 2 < (addNearby M r i (List.range n) [i] (i :: v)).1.length
            then acc ++ [(addNearby M r i (List.range n) [i] (i :: v)).1] else acc) := rfl

theorem specGreedy_nil (M : Nat → Nat → ℚ) (r : ℚ) (n : Nat) (v : List Nat) :
    specGreedy M r n [] v = [] := rfl

theorem specGreedy_cons (M : Nat → Nat → ℚ) (r : ℚ) (n i : Nat) (t v : List Nat) :
    specGreedy M r n (i :: t) v =
      if i ∈ v then specGreedy M r n t v
      else
        (if 3 ≤ (specClusterOf M r n i v).length then [specClusterOf M r n i v] else [])
          ++ specGreedy M r n t (v ++ specClusterOf M r n i v) := rfl

theorem addNearby_eq (M : Nat → Nat → ℚ) (r : ℚ) (i : Nat) (js : List Nat) (hnd : js.Nodup)
    (c v : List Nat) :
    addNearby M r i js c v =
      (c ++ js.filter (fun j => decide (j ≠ i ∧ j ∉ v ∧ M i j ≤ r)),
       (js.filter (fun j => decide (j ≠ i ∧ j ∉ v ∧ M i j ≤ r))).reverse ++ v) := by
  induction js generalizing c v with
  | nil => simp [addNearby]
  | cons j t ih =>
      have hjt : j ∉ t := (List.nodup_cons.mp hnd).1
      have hnd2 : t.Nodup := (List.nodup_cons.mp hnd).2
      rw [addNearby]
      by_cases hc : j ≠ i ∧ j ∉ v ∧ M i j ≤ r
      · rw [if_pos hc, ih hnd2]
        have hfeq : t.filter (fun x => decide (x ≠ i ∧ x ∉ (j :: v) ∧ M i x ≤ r))
            = t.filter (fun x => decide (x ≠ i ∧ x ∉ v ∧ M i x ≤ r)) := by
          apply List.filter_congr
          intro x hx
          have hxj : x ≠ j := fun h => hjt (h ▸ hx)
          simp only [decide_eq_decide, List.mem_cons]
          constructor
          · rintro ⟨h1, h2, h3⟩
            exact ⟨h1, fun hm => h2 (Or.inr hm), h3⟩
          · rintro ⟨h1, h2, h3⟩
            refine ⟨h1, ?_, h3⟩
            rintro (h | h)
            · exact hxj h
            · exact h2 h
        rw [hfeq, List.filter_cons_of_pos (by simpa using hc)]
        rw [List.reverse_cons]
        simp [List.append_assoc]
      · rw [if_neg hc, ih hnd2, List.filter_cons_of_neg (by simpa using hc)]

theorem greedyClusters_eq_specGreedy (M : Nat → Nat → ℚ) (r : ℚ) (n : Nat) (seeds : List Nat) :
    ∀ (v₁ v₂ : List Nat) (acc : List (List Nat)), (∀ x, x ∈ v₁ ↔ x ∈ v₂) →
      greedyClusters M r n seeds v₁ acc = acc ++ specGreedy M r n seeds v₂ := by
  induction seeds with
  | nil =>
      intro v₁ v₂ acc hv
      rw [greedyClusters_nil, specGreedy_nil, List.append_nil]
  | cons i t ih =>
      intro v₁ v₂ acc hv
      rw [greedyClusters_cons, specGreedy_cons]
      by_cases hi : i ∈ v₁
      · rw [if_pos hi, if_pos ((hv i).mp hi)]
        exact ih v₁ v₂ acc hv
      · rw [if_neg hi, if_neg (fun h => hi ((hv i).mpr h))]
        rw [addNearby_eq M r i (List.range n) (List.nodup_range n)]
        have hfeq : (List.range n).filter (fun j => decide (j ≠ i ∧ j ∉ (i :: v₁) ∧ M i j ≤ r))
            = (List.range n).filter (fun j => decide (j ≠ i ∧ j ∉ v₂ ∧ M i j ≤ r)) := by
          apply List.filter_congr
          intro x _
          simp only [decide_eq_decide, List.mem_cons]
          constructor
          · rintro ⟨h1, h2, h3⟩
            exact ⟨h1, fun hm => h2 (Or.inr ((hv x).mpr hm)), h3⟩
          · rintro ⟨h1, h2, h3⟩
            refine ⟨h1, ?_, h3⟩
            rintro (h | h)
            · exact h1 h
            · exact h2 ((hv x).mp h)
        simp only [hfeq]
        set F := (List.range n).filter (fun j => decide (j ≠ i ∧ j ∉ v₂ ∧ M i j ≤ r)) with hF
        have hcl : [i] ++ F = specClusterOf M r n i v₂ := by
          rw [specClusterOf]
          rfl
        have hv2 : ∀ x, x ∈ F.reverse ++ (i :: v₁) ↔ x ∈ v₂ ++ specClusterOf M r n i v₂ := by
          intro x
          rw [← hcl]
          simp only [List.mem_append, List.mem_reverse, List.mem_cons, List.mem_singleton]
          rw [← hv x]
          tauto
        rw [ih _ _ _ hv2]
        by_cases h3 : 3 ≤ (specClusterOf M r n i v₂).length
        · rw [if_pos h3, if_pos (by rw [← hcl] at h3; simp at h3 ⊢; omega : 2 < ([i] ++ F).length)]
          rw [hcl]
          simp [List.append_assoc]
        · rw [if_neg h3, if_neg (by rw [← hcl] at h3; simp at h3 ⊢; omega : ¬ 2 < ([i] ++ F).length)]
          simp

theorem specGreedy_min_length (M : Nat → Nat → ℚ) (r : ℚ) (n : Nat) :
    ∀ (seeds v : List Nat), ∀ c ∈ specGreedy M r n seeds v, 3 ≤ c.length := by
  intro seeds
  induction seeds with
  | nil =>
      intro v c hc
      rw [specGreedy_nil] at hc
      cases hc
  | cons i t ih =>
      intro v c hc
      rw [specGreedy_cons] at hc
      by_cases hi : i ∈ v
      · rw [if_pos hi] at hc
        exact ih v c hc
      · rw [if_neg hi] at hc
        rcases List.mem_append.mp hc with h | h
        · by_cases hlen : 3 ≤ (specClusterOf M r n i v).length
          · rw [if_pos hlen] at h
            simp only [List.mem_singleton] at h
            subst h
            exact hlen
          · rw [if_neg hlen] at h
            cases h
        · exact ih _ c h

theorem specGreedy_avoids (M : Nat → Nat → ℚ) (r : ℚ) (n : Nat) :
    ∀ (seeds v : List Nat), ∀ c ∈ specGreedy M r n seeds v, ∀ x ∈ c, x ∉ v := by
  intro seeds
  induction seeds with
  | nil =>
      intro v c hc
      rw [specGreedy_nil] at hc
      cases hc
  | cons i t ih =>
      intro v c hc
      rw [specGreedy_cons] at hc
      by_cases hi : i ∈ v
      · rw [if_pos hi] at hc
        exact ih v c hc
      · rw [if_neg hi] at hc
        rcases List.mem_append.mp hc with h | h
        · by_cases hlen : 3 ≤ (specClusterOf M r n i v).length
          · rw [if_pos hlen] at h
            simp only [List.mem_singleton] at h
            subst h
            intro x hx
            rcases List.mem_cons.mp hx with rfl | hx2
            · exact hi
            · have hmem := List.of_mem_filter hx2
              simp only [decide_eq_true_eq] at hmem
              exact hmem.2.1
          · rw [if_neg hlen] at h
            cases h
        · intro x hx
          have h2 := ih _ c h x hx
          intro hxv
          exact h2 (List.mem_append.mpr (Or.inl hxv))

theorem specGreedy_pairwise_disjoint (M : Nat → Nat → ℚ) (r : ℚ) (n : Nat) :
    ∀ (seeds v : List Nat),
      List.Pairwise (fun c₁ c₂ => ∀ x, x ∈ c₁ → x ∉ c₂) (specGreedy M r n seeds v) := by
  intro seeds
  induction seeds with
  | nil =>
      intro v
      rw [specGreedy_nil]
      exact List.Pairwise.nil
  | cons i t ih =>
      intro v
      rw [specGreedy_cons]
      by_cases hi : i ∈ v
      · rw [if_pos hi]
        exact ih v
      · rw [if_neg hi]
        by_cases hlen : 3 ≤ (specClusterOf M r n i v).length
        · rw [if_pos hlen, List.singleton_append, List.pairwise_cons]
          refine ⟨?_, ih _⟩
          intro c' hc' x hx hxc'
          have havoid := specGreedy_avoids M r n t (v ++ specClusterOf M r n i v) c' hc' x hxc'
          exact havoid (List.mem_append.mpr (Or.inr hx))
        · rw [if_neg hlen, List.nil_append]
          exact ih _

/-- Concrete counterexample configuration: nine facilities on the equator at
mile marks `0, 8, -9, 17, -19, -18, 21, 22, 23`; the table lists the exact
pairwise haversine distances `|pos i - pos j|`. -/
def dC1 : Nat → Nat → ℚ := tableD
  [[0, 8, 9, 17, 19, 18, 21, 22, 23],
   [8, 0, 17, 9, 27, 26, 13, 14, 15],
   [9, 17, 0, 26, 10, 9, 30, 31, 32],
   [17, 9, 26, 0, 36, 35, 4, 5, 6],
   [19, 27, 10, 36, 0, 1, 40, 41, 42],
   [18, 26, 9, 35, 1, 0, 39, 40, 41],
   [21, 13, 30, 4, 40, 39, 0, 1, 2],
   [22, 14, 31, 5, 41, 40, 1, 0, 1],
   [23, 15, 32, 6, 42, 41, 2, 1, 0]]

/-- The facility rows for the nine-point configuration (categories and
cities do not matter for the clustering claims). -/
def fsC1 : List Facility := List.replicate 9 { ftype := "RHC", city := "X" }

/-- C1, counterexample: on the nine-facility configuration the code's
clustering (seeds in original row order, as `high_overlap.iterrows()`
yields them) produces the two clusters `[[0,1,2],[3,6,7,8]]`, while the
claim's algorithm (the same greedy scan but seeds in ranked, descending
neighbor-count order) produces the single cluster `[[1,0,3]]`. -/
theorem consolidation_seed_order_counterexample :
    (analyze fsC1 dC1).map (fun r => r.clusters) = some [[0, 1, 2], [3, 6, 7, 8]] ∧
    specGreedy (distMatrix dC1 9) consolidationRadius 9
        (specSeedsRanked (fun i => overlapsCount (distMatrix dC1 9) 20 9 i) 9) []
      = [[1, 0, 3]] ∧
    ([[0, 1, 2], [3, 6, 7, 8]] : List (List Nat)) ≠ [[1, 0, 3]] :=
  ⟨by decide, by decide, by decide⟩

/-- C1, amended: the consolidation clustering of the source equals the
spec's greedy algorithm (visited set; each unvisited seed starts a cluster
absorbing every not-yet-visited facility within the 10-mile consolidation
radius, all marked visited; clusters of fewer than 3 members discarded)
with the seed set `neighbor_count ≥ 5` iterated in original input order —
not in ranked order. -/
theorem consolidation_clusters_follow_spec_input_order (d : Nat → Nat → ℚ) (n : Nat) :
    greedyClusters (distMatrix d n) consolidationRadius n
        (seedList (fun i => overlapsCount (distMatrix d n) 20 n i) n) [] []
      = specGreedy (distMatrix d n) consolidationRadius n
          (seedList (fun i => overlapsCount (distMatrix d n) 20 n i) n) [] :=
  greedyClusters_eq_specGreedy _ _ _ _ [] [] [] (fun _ => Iff.rfl)

/-- C5: however the seed list is chosen, the clusters the greedy
consolidation loop reports are pairwise disjoint (no facility belongs to
more than one cluster) and each has at least 3 members. -/
theorem clusters_disjoint_and_min_size (M : Nat → Nat → ℚ) (r : ℚ) (n : Nat)
    (seeds : List Nat) :
    List.Pairwise (fun c₁ c₂ => ∀ x, x ∈ c₁ → x ∉ c₂) (greedyClusters M r n seeds [] []) ∧
    ∀ c ∈ greedyClusters M r n seeds [] [], 3 ≤ c.length := by
  rw [greedyClusters_eq_specGreedy M r n seeds [] [] [] (fun _ => Iff.rfl), List.nil_append]
  exact ⟨specGreedy_pairwise_disjoint M r n seeds [], specGreedy_min_length M r n seeds []⟩

/-- C2: each facility's neighbor count equals the number of facilities
`j ≠ i` at matrix distance at most 20, the threshold being inclusive: at
exactly 20 miles the two facilities count each other mutually, strictly
beyond 20 neither counts the other; the `overlapping` category list has
the count's length and its per-category occurrence counts give the
value-counts breakdown. -/
theorem neighbor_count_inclusive (d : Nat → Nat → ℚ) (types : Nat → String) (n i j : Nat)
    (hi : i < n) (hj : j < n) (hij : i ≠ j) :
    overlapsCount (distMatrix d n) 20 n i
      = ((Finset.range n).filter (fun k => i ≠ k ∧ distMatrix d n i k ≤ 20)).card ∧
    (distMatrix d n i j = 20 →
      j ∈ neighborList (distMatrix d n) 20 n i ∧ i ∈ neighborList (distMatrix d n) 20 n j) ∧
    (20 < distMatrix d n i j →
      j ∉ neighborList (distMatrix d n) 20 n i ∧ i ∉ neighborList (distMatrix d n) 20 n j) ∧
    (overlapping types (distMatrix d n) 20 n i).length = overlapsCount (distMatrix d n) 20 n i ∧
    (∀ c : String, (overlapping types (distMatrix d n) 20 n i).countP (fun s => decide (s = c))
      = ((neighborList (distMatrix d n) 20 n i).filter (fun k => decide (types k = c))).length) := by
  refine ⟨overlapsCount_eq_card _ _ _ _, ?_, ?_, ?_, ?_⟩
  · intro h20
    constructor
    · exact (mem_neighborList _ _ _ _ _).mpr ⟨hj, hij, le_of_eq h20⟩
    · refine (mem_neighborList _ _ _ _ _).mpr ⟨hi, fun h => hij h.symm, ?_⟩
      rw [distMatrix_symm d n j i]
      exact le_of_eq h20
  · intro h20
    constructor
    · intro hmem
      have h := ((mem_neighborList _ _ _ _ _).mp hmem).2.2
      exact absurd h (not_le.mpr h20)
    · intro hmem
      have h := ((mem_neighborList _ _ _ _ _).mp hmem).2.2
      rw [distMatrix_symm d n j i] at h
      exact absurd h (not_le.mpr h20)
  · rw [overlapping, List.length_map, overlapsCount]
  · intro c
    rw [overlapping, List.countP_map, List.countP_eq_length_filter]
    rfl

theorem neighbor_count_inclusive_witness :
    overlapsCount (distMatrix (tableD [[0, 20], [20, 0]]) 2) 20 2 0
      = ((Finset.range 2).filter
          (fun k => 0 ≠ k ∧ distMatrix (tableD [[0, 20], [20, 0]]) 2 0 k ≤ 20)).card ∧
    (distMatrix (tableD [[0, 20], [20, 0]]) 2 0 1 = 20 →
      1 ∈ neighborList (distMatrix (tableD [[0, 20], [20, 0]]) 2) 20 2 0 ∧
      0 ∈ neighborList (distMatrix (tableD [[0, 20], [20, 0]]) 2) 20 2 1) ∧
    (20 < distMatrix (tableD [[0, 20], [20, 0]]) 2 0 1 →
      1 ∉ neighborList (distMatrix (tableD [[0, 20], [20, 0]]) 2) 20 2 0 ∧
      0 ∉ neighborList (distMatrix (tableD [[0, 20], [20, 0]]) 2) 20 2 1) ∧
    (overlapping (fun _ => "Hospital") (distMatrix (tableD [[0, 20], [20, 0]]) 2) 20 2 0).length
      = overlapsCount (distMatrix (tableD [[0, 20], [20, 0]]) 2) 20 2 0 ∧
    (∀ c : String,
      (overlapping (fun _ => "Hospital") (distMatrix (tableD [[0, 20], [20, 0]]) 2) 20 2 0).countP
          (fun s => decide (s = c))
        = ((neighborList (distMatrix (tableD [[0, 20], [20, 0]]) 2) 20 2 0).filter
            (fun k => decide ((fun _ => "Hospital") k = c))).length) :=
  neighbor_count_inclusive (tableD [[0, 20], [20, 0]]) (fun _ => "Hospital") 2 0 1
    (by decide) (by decide) (by decide)

/-- C3: the redundancy score is `(sum of neighbor counts / 2) / n`; for
every radius `R` the halved sum of neighbor counts equals the number of
unordered pairs at distance at most `R`; and when no two distinct
facilities are within 20 miles the score is exactly 0. -/
theorem redundancy_score_spec (fs : List Facility) (d : Nat → Nat → ℚ) (hne : fs ≠ []) :
    (analyze fs d).map (fun r => r.redundancy_score)
      = some (((sumNeighborCounts (distMatrix d fs.length) 20 fs.length : ℚ) / 2)
          / (fs.length : ℚ)) ∧
    (∀ R : ℚ, sumNeighborCounts (distMatrix d fs.length) R fs.length
        = 2 * unorderedPairsWithin (distMatrix d fs.length) R fs.length) ∧
    ((∀ i j, i < fs.length → j < fs.length → i ≠ j → ¬ distMatrix d fs.length i j ≤ 20) →
      (analyze fs d).map (fun r => r.redundancy_score) = some 0) := by
  have hE : fs.isEmpty = false := by simpa [List.isEmpty_iff] using hne
  have hmain : (analyze fs d).map (fun r => r.redundancy_score)
      = some (redundancyScore (distMatrix d fs.length) fs.length) := by
    simp only [analyze, hE, Bool.false_eq_true, if_false]
    rfl
  refine ⟨?_, ?_, ?_⟩
  · rw [hmain]
    rfl
  · intro R
    exact sumNeighborCounts_eq_twice_pairs _ R _ (fun a b _ _ => distMatrix_symm d fs.length a b)
  · intro hfar
    rw [hmain]
    have hzero : sumNeighborCounts (distMatrix d fs.length) 20 fs.length = 0 := by
      rw [sumNeighborCounts]
      apply List.sum_eq_zero
      intro x hx
      rw [List.mem_map] at hx
      obtain ⟨i, hi, rfl⟩ := hx
      rw [List.mem_range] at hi
      rw [overlapsCount, neighborList, List.length_eq_zero, List.filter_eq_nil_iff]
      intro j hj
      rw [List.mem_range] at hj
      simp only [decide_eq_true_eq, not_and]
      intro hij
      exact hfar i j hi hj hij
    rw [redundancyScore, hzero]
    norm_num

def dC3 : Nat → Nat → ℚ := tableD [[0, 5], [5, 0]]

def fsC3 : List Facility :=
  [{ ftype := "Hospital", city := "Alpha" }, { ftype := "RHC", city := "Beta" }]

theorem redundancy_score_spec_witness :
    (analyze fsC3 dC3).map (fun r => r.redundancy_score)
      = some (((sumNeighborCounts (distMatrix dC3 fsC3.length) 20 fsC3.length : ℚ) / 2)
          / (fsC3.length : ℚ)) ∧
    (∀ R : ℚ, sumNeighborCounts (distMatrix dC3 fsC3.length) R fsC3.length
        = 2 * unorderedPairsWithin (distMatrix dC3 fsC3.length) R fsC3.length) ∧
    ((∀ i j, i < fsC3.length → j < fsC3.length → i ≠ j →
        ¬ distMatrix dC3 fsC3.length i j ≤ 20) →
      (analyze fsC3 dC3).map (fun r => r.redundancy_score) = some 0) :=
  redundancy_score_spec fsC3 dC3 (by decide)

theorem rankedAll_perm (counts : Nat → Nat) (n : Nat) :
    (rankedAll counts n).Perm (List.range n) :=
  List.perm_insertionSort _ _

theorem rankedAll_sorted_strict (counts : Nat → Nat) (n : Nat) :
    List.Pairwise (fun i j => counts j < counts i ∨ (counts i = counts j ∧ i < j))
      (rankedAll counts n) := by
  have hnd : (rankedAll counts n).Nodup :=
    ((rankedAll_perm counts n).nodup_iff).mpr (List.nodup_range n)
  have hs : List.Pairwise (fun i j => counts j < counts i ∨ (counts i = counts j ∧ i ≤ j))
      (rankedAll counts n) := by
    letI : IsTotal Nat (fun i j => counts j < counts i ∨ (counts i = counts j ∧ i ≤ j)) := by
      constructor
      intro a b
      rcases Nat.lt_trichotomy (counts a) (counts b) with h | h | h
      · exact Or.inr (Or.inl h)
      · rcases Nat.le_total a b with h2 | h2
        · exact Or.inl (Or.inr ⟨h, h2⟩)
        · exact Or.inr (Or.inr ⟨h.symm, h2⟩)
      · exact Or.inl (Or.inl h)
    letI : IsTrans Nat (fun i j => counts j < counts i ∨ (counts i = counts j ∧ i ≤ j)) := by
      constructor
      intro a b c hab hbc
      rcases hab with h1 | ⟨h1, h1b⟩
      · rcases hbc with h2 | ⟨h2, h2b⟩
        · exact Or.inl (Nat.lt_trans h2 h1)
        · exact Or.inl (h2 ▸ h1)
      · rcases hbc with h2 | ⟨h2, h2b⟩
        · exact Or.inl (h1 ▸ h2)
        · exact Or.inr ⟨h1.trans h2, Nat.le_trans h1b h2b⟩
    exact List.sorted_insertionSort _ _
  have hcomb := hs.and hnd
  apply hcomb.imp
  intro a b hab
  rcases hab with ⟨h1 | ⟨h1, h2⟩, hne⟩
  · exact Or.inl h1
  · exact Or.inr ⟨h1, Nat.lt_of_le_of_ne h2 hne⟩

/-- C7, amended: the facilities are totally ordered by descending neighbor
count with ties in original input order (the `nlargest(15, 'overlaps')`
order with `keep='first'`); the first 15 of that order are surfaced as the
highest-redundancy locations, but the machine-readable report's ranked
list keeps only the first 10 of them (`.head(10)` at line 309). -/
theorem ranking_and_report_top (fs : List Facility) (d : Nat → Nat → ℚ) (hne : fs ≠ []) :
    (analyze fs d).map (fun r => r.top_redundant)
      = some ((rankedAll (fun i => overlapsCount (distMatrix d fs.length) 20 fs.length i)
          fs.length).take 15) ∧
    (rankedAll (fun i => overlapsCount (distMatrix d fs.length) 20 fs.length i)
        fs.length).Perm (List.range fs.length) ∧
    List.Pairwise (fun i j =>
        overlapsCount (distMatrix d fs.length) 20 fs.length j
            < overlapsCount (distMatrix d fs.length) 20 fs.length i ∨
          (overlapsCount (distMatrix d fs.length) 20 fs.length i
              = overlapsCount (distMatrix d fs.length) 20 fs.length j ∧ i < j))
      (rankedAll (fun i => overlapsCount (distMatrix d fs.length) 20 fs.length i) fs.length) ∧
    (analyze fs d).map (fun r => r.report_top)
      = some (((rankedAll (fun i => overlapsCount (distMatrix d fs.length) 20 fs.length i)
          fs.length).take 15).take 10) := by
  have hE : fs.isEmpty = false := by simpa [List.isEmpty_iff] using hne
  refine ⟨?_, rankedAll_perm _ _, rankedAll_sorted_strict _ _, ?_⟩
  · simp only [analyze, hE, Bool.false_eq_true, if_false]
    rfl
  · simp only [analyze, hE, Bool.false_eq_true, if_false]
    rfl

/-- Eleven facilities at consecutive mile marks 0..10 along the equator:
every pair is within 20 miles, so all neighbor counts are 10 and the
ranked order is the input order. -/
def dC7 : Nat → Nat → ℚ := tableD
  [[0, 1, 2, 3, 4, 5, 6, 7, 8, 9, 10],
   [1, 0, 1, 2, 3, 4, 5, 6, 7, 8, 9],
   [2, 1, 0, 1, 2, 3, 4, 5, 6, 7, 8],
   [3, 2, 1, 0, 1, 2, 3, 4, 5, 6, 7],
   [4, 3, 2, 1, 0, 1, 2, 3, 4, 5, 6],
   [5, 4, 3, 2, 1, 0, 1, 2, 3, 4, 5],
   [6, 5, 4, 3, 2, 1, 0, 1, 2, 3, 4],
   [7, 6, 5, 4, 3, 2, 1, 0, 1, 2, 3],
   [8, 7, 6, 5, 4, 3, 2, 1, 0, 1, 2],
   [9, 8, 7, 6, 5, 4, 3, 2, 1, 0, 1],
   [10, 9, 8, 7, 6, 5, 4, 3, 2, 1, 0]]

def fsC7 : List Facility := List.replicate 11 { ftype := "FQHC", city := "Y" }

/-- C7, counterexample: with eleven facilities the printed top-15 list
holds all eleven ranked indices, but the machine-readable report's list
(`head(10)`) holds only the first ten: index 10 is ranked in the top 15
yet absent from the report. -/
theorem report_top_missing_counterexample :
    (analyze fsC7 dC7).map (fun r => r.top_redundant)
      = some [0, 1, 2, 3, 4, 5, 6, 7, 8, 9, 10] ∧
    (analyze fsC7 dC7).map (fun r => r.report_top)
      = some [0, 1, 2, 3, 4, 5, 6, 7, 8, 9] ∧
    (10 : Nat) ∈ [0, 1, 2, 3, 4, 5, 6, 7, 8, 9, 10] ∧
    (10 : Nat) ∉ [0, 1, 2, 3, 4, 5, 6, 7, 8, 9] :=
  ⟨by decide, by decide, by decide, by decide⟩

theorem ranking_and_report_top_witness :
    (analyze fsC7 dC7).map (fun r => r.top_redundant)
      = some ((rankedAll (fun i => overlapsCount (distMatrix dC7 fsC7.length) 20 fsC7.length i)
          fsC7.length).take 15) ∧
    (rankedAll (fun i => overlapsCount (distMatrix dC7 fsC7.length) 20 fsC7.length i)
        fsC7.length).Perm (List.range fsC7.length) ∧
    List.Pairwise (fun i j =>
        overlapsCount (distMatrix dC7 fsC7.length) 20 fsC7.length j
            < overlapsCount (distMatrix dC7 fsC7.length) 20 fsC7.length i ∨
          (overlapsCount (distMatrix dC7 fsC7.length) 20 fsC7.length i
              = overlapsCount (distMatrix dC7 fsC7.length) 20 fsC7.length j ∧ i < j))
      (rankedAll (fun i => overlapsCount (distMatrix dC7 fsC7.length) 20 fsC7.length i)
        fsC7.length) ∧
    (analyze fsC7 dC7).map (fun r => r.report_top)
      = some (((rankedAll (fun i => overlapsCount (distMatrix dC7 fsC7.length) 20 fsC7.length i)
          fsC7.length).take 15).take 10) :=
  ranking_and_report_top fsC7 dC7 (by decide)

theorem charListLtB_nil_nil : charListLtB [] [] = false := rfl

theorem charListLtB_nil_cons (d : Char) (ds : List Char) :
    charListLtB [] (d :: ds) = true := rfl

theorem charListLtB_cons_nil (c : Char) (cs : List Char) :
    charListLtB (c :: cs) [] = false := rfl

theorem charListLtB_cons_cons (c d : Char) (cs ds : List Char) :
    charListLtB (c :: cs) (d :: ds)
      = (decide (c.toNat < d.toNat) || (decide (c.toNat = d.toNat) && charListLtB cs ds)) := rfl

theorem charListLtB_irrefl : ∀ l : List Char, charListLtB l l = false
  | [] => rfl
  | c :: cs => by
      rw [charListLtB_cons_cons]
      simp [charListLtB_irrefl cs]

theorem charListLtB_trans : ∀ a b c : List Char,
    charListLtB a b = true → charListLtB b c = true → charListLtB a c = true
  | [], [], _, h1, _ => by rw [charListLtB_nil_nil] at h1; cases h1
  | [], _ :: _, [], _, h2 => by rw [charListLtB_cons_nil] at h2; cases h2
  | [], _ :: _, _ :: _, _, _ => rfl
  | _ :: _, [], _, h1, _ => by rw [charListLtB_cons_nil] at h1; cases h1
  | _ :: _, _ :: _, [], _, h2 => by rw [charListLtB_cons_nil] at h2; cases h2
  | a :: as, b :: bs, c :: cs, h1, h2 => by
      rw [charListLtB_cons_cons] at h1 h2 ⊢
      simp only [Bool.or_eq_true, Bool.and_eq_true, decide_eq_true_eq] at h1 h2 ⊢
      rcases h1 with h1 | ⟨h1e, h1r⟩
      · rcases h2 with h2 | ⟨h2e, h2r⟩
        · exact Or.inl (Nat.lt_trans h1 h2)
        · exact Or.inl (h2e ▸ h1)
      · rcases h2 with h2 | ⟨h2e, h2r⟩
        · exact Or.inl (h1e ▸ h2)
        · exact Or.inr ⟨h1e.trans h2e, charListLtB_trans as bs cs h1r h2r⟩

theorem charListLtB_eq_of_not_lt : ∀ a b : List Char,
    charListLtB a b = false → charListLtB b a = false → a = b
  | [], [], _, _ => rfl
  | [], x :: xs, h1, _ => by rw [charListLtB_nil_cons] at h1; cases h1
  | x :: xs, [], _, h2 => by rw [charListLtB_nil_cons] at h2; cases h2
  | a :: as, b :: bs, h1, h2 => by
      rw [charListLtB_cons_cons] at h1 h2
      simp only [Bool.or_eq_false_iff, Bool.and_eq_false_iff, decide_eq_false_iff_not] at h1 h2
      have hab : a.toNat = b.toNat := by omega
      have hc : a = b := Char.ext (UInt32.toNat.inj hab)
      subst hc
      have hr1 : charListLtB as bs = false := by
        rcases h1.2 with h | h
        · exact absurd rfl h
        · exact h
      have hr2 : charListLtB bs as = false := by
        rcases h2.2 with h | h
        · exact absurd rfl h
        · exact h
      rw [charListLtB_eq_of_not_lt as bs hr1 hr2]

theorem strLtB_irrefl (a : String) : strLtB a a = false :=
  charListLtB_irrefl a.data

theorem strLtB_trans (a b c : String) (h1 : strLtB a b = true) (h2 : strLtB b c = true) :
    strLtB a c = true :=
  charListLtB_trans a.data b.data c.data h1 h2

theorem strLtB_eq_of_not_lt (a b : String) (h1 : strLtB a b = false)
    (h2 : strLtB b a = false) : a = b := by
  have hd : a.data = b.data := charListLtB_eq_of_not_lt a.data b.data h1 h2
  cases a
  cases b
  exact congrArg String.mk hd

theorem strLtB_asymm (a b : String) (h : strLtB a b = true) : strLtB b a = false := by
  by_contra hc
  rw [Bool.not_eq_false] at hc
  have := strLtB_trans a b a h hc
  rw [strLtB_irrefl] at this
  cases this

theorem minString?_nil : minString? [] = none := rfl

theorem minString?_cons_none (c : String) (cs : List String) (h : minString? cs = none) :
    minString? (c :: cs) = some c := by
  rw [minString?, h]

theorem minString?_cons_some (c : String) (cs : List String) (m : String)
    (h : minString? cs = some m) :
    minString? (c :: cs) = if strLtB m c then some m else some c := by
  rw [minString?, h]

theorem minString?_isSome : ∀ (l : List String), l ≠ [] → ∃ m, minString? l = some m
  | [], h => absurd rfl h
  | c :: cs, _ => by
      cases hm : minString? cs with
      | none => exact ⟨c, minString?_cons_none c cs hm⟩
      | some m =>
          rw [minString?_cons_some c cs m hm]
          by_cases hlt : strLtB m c = true
          · exact ⟨m, by rw [if_pos hlt]⟩
          · exact ⟨c, by rw [if_neg hlt]⟩

theorem minString?_mem : ∀ (l : List String) (m : String), minString? l = some m → m ∈ l
  | [], m, h => by rw [minString?_nil] at h; cases h
  | c :: cs, m, h => by
      cases hm : minString? cs with
      | none =>
          rw [minString?_cons_none c cs hm] at h
          simp only [Option.some.injEq] at h
          subst h
          exact List.mem_cons_self _ _
      | some m2 =>
          rw [minString?_cons_some c cs m2 hm] at h
          by_cases hlt : strLtB m2 c = true
          · rw [if_pos hlt] at h
            simp only [Option.some.injEq] at h
            subst h
            exact List.mem_cons_of_mem _ (minString?_mem cs m2 hm)
          · rw [if_neg hlt] at h
            simp only [Option.some.injEq] at h
            subst h
            exact List.mem_cons_self _ _

theorem minString?_least : ∀ (l : List String) (m : String), minString? l = some m →
    ∀ x ∈ l, strLtB x m = false
  | [], m, h => by rw [minString?_nil] at h; cases h
  | c :: cs, m, h => by
      cases hm : minString? cs with
      | none =>
          rw [minString?_cons_none c cs hm] at h
          simp only [Option.some.injEq] at h
          subst h
          intro x hx
          have hcs : cs = [] := by
            by_contra hne
            obtain ⟨m2, hm2⟩ := minString?_isSome cs hne
            rw [hm2] at hm
            cases hm
          subst hcs
          rcases List.mem_singleton.mp hx with rfl
          exact strLtB_irrefl x
      | some m2 =>
          rw [minString?_cons_some c cs m2 hm] at h
          have hleast := minString?_least cs m2 hm
          by_cases hlt : strLtB m2 c = true
          · rw [if_pos hlt] at h
            simp only [Option.some.injEq] at h
            subst h
            intro x hx
            rcases List.mem_cons.mp hx with rfl | hx2
            · exact strLtB_asymm _ _ hlt
            · exact hleast x hx2
          · rw [if_neg hlt] at h
            simp only [Option.some.injEq] at h
            subst h
            intro x hx
            rcases List.mem_cons.mp hx with rfl | hx2
            · exact strLtB_irrefl x
            · have hxm2 := hleast x hx2
              by_contra hc2
              rw [Bool.not_eq_false] at hc2
              by_cases hm2x : strLtB m2 x = true
              · have htr := strLtB_trans m2 x c hm2x hc2
                rw [Bool.not_eq_true] at hlt
                rw [htr] at hlt
                cases hlt
              · rw [Bool.not_eq_true] at hm2x
                have heq := strLtB_eq_of_not_lt m2 x hm2x hxm2
                subst heq
                rw [Bool.not_eq_true] at hlt
                rw [hc2] at hlt
                cases hlt

theorem le_foldr_max (a : Nat) : ∀ (ls : List Nat), a ∈ ls → a ≤ ls.foldr max 0
  | [], h => by cases h
  | b :: t, h => by
      rcases List.mem_cons.mp h with rfl | h2
      · exact Nat.le_max_left _ _
      · exact Nat.le_trans (le_foldr_max a t h2) (Nat.le_max_right _ _)

theorem foldr_max_mem : ∀ (ls : List Nat), ls ≠ [] → ls.foldr max 0 ∈ ls
  | [], h => absurd rfl h
  | [a], _ => by simp
  | a :: b :: t, _ => by
      rw [List.foldr_cons]
      rcases max_choice a ((b :: t).foldr max 0) with h | h
      · rw [h]
        exact List.mem_cons_self _ _
      · rw [h]
        exact List.mem_cons_of_mem _ (foldr_max_mem (b :: t) (by simp))

theorem count_le_maxFreq (l : List String) (x : String) (hx : x ∈ l) :
    l.count x ≤ maxFreq l := by
  rw [maxFreq]
  exact le_foldr_max _ _ (List.mem_map.mpr ⟨x, hx, rfl⟩)

theorem maxFreq_attained (l : List String) (h : l ≠ []) :
    ∃ x ∈ l, l.count x = maxFreq l := by
  have hmm : maxFreq l ∈ l.map (fun c => l.count c) := by
    rw [maxFreq]
    apply foldr_max_mem
    simp [h]
  rw [List.mem_map] at hmm
  obtain ⟨x, hx, he⟩ := hmm
  exact ⟨x, hx, he⟩

theorem dominantCity_is_lex_min_mode (l : List String) (h : l ≠ []) :
    dominantCity l ∈ l ∧
    l.count (dominantCity l) = maxFreq l ∧
    (∀ x ∈ l, l.count x ≤ l.count (dominantCity l)) ∧
    (∀ x ∈ l, l.count x = l.count (dominantCity l) → strLtB x (dominantCity l) = false) := by
  have hFne : l.filter (fun c => decide (l.count c = maxFreq l)) ≠ [] := by
    obtain ⟨x, hx, he⟩ := maxFreq_attained l h
    intro hnil
    have hmemF : x ∈ l.filter (fun c => decide (l.count c = maxFreq l)) :=
      List.mem_filter.mpr ⟨hx, by simp [he]⟩
    rw [hnil] at hmemF
    cases hmemF
  obtain ⟨m, hm⟩ := minString?_isSome _ hFne
  have hdc : dominantCity l = m := by
    rw [dominantCity, hm]
  have hmemF := minString?_mem _ m hm
  have hmF := List.mem_filter.mp hmemF
  have hcount : l.count m = maxFreq l := by
    have := hmF.2
    simpa using this
  rw [hdc]
  refine ⟨hmF.1, hcount, ?_, ?_⟩
  · intro x hx
    rw [hcount]
    exact count_le_maxFreq l x hx
  · intro x hx hxc
    apply minString?_least _ m hm
    refine List.mem_filter.mpr ⟨hx, ?_⟩
    simp [hxc, hcount]

/-- C6, amended: for each of the (at most five) surviving clusters whose
dominant city the report loop computes, `dominant_city` is a most frequent
city label among the cluster members, but ties are broken by the least
label in the Python string order (`Series.mode` returns its values
sorted), not by first encounter in iteration order. -/
theorem dominant_city_is_mode_with_lex_tiebreak (fs : List Facility) (d : Nat → Nat → ℚ)
    (hne : fs ≠ []) :
    (analyze fs d).map (fun r => r.cluster_cities)
      = some (((greedyClusters (distMatrix d fs.length) consolidationRadius fs.length
          (seedList (fun i => overlapsCount (distMatrix d fs.length) 20 fs.length i)
            fs.length) [] []).take 5).map (fun c => dominantCity (c.map (cityOf fs)))) ∧
    ∀ c ∈ (greedyClusters (distMatrix d fs.length) consolidationRadius fs.length
        (seedList (fun i => overlapsCount (distMatrix d fs.length) 20 fs.length i)
          fs.length) [] []).take 5,
      dominantCity (c.map (cityOf fs)) ∈ c.map (cityOf fs) ∧
      (c.map (cityOf fs)).count (dominantCity (c.map (cityOf fs)))
        = maxFreq (c.map (cityOf fs)) ∧
      (∀ x ∈ c.map (cityOf fs),
        (c.map (cityOf fs)).count x
          ≤ (c.map (cityOf fs)).count (dominantCity (c.map (cityOf fs)))) ∧
      (∀ x ∈ c.map (cityOf fs),
        (c.map (cityOf fs)).count x
            = (c.map (cityOf fs)).count (dominantCity (c.map (cityOf fs))) →
          strLtB x (dominantCity (c.map (cityOf fs))) = false) := by
  have hE : fs.isEmpty = false := by simpa [List.isEmpty_iff] using hne
  constructor
  · simp only [analyze, hE, Bool.false_eq_true, if_false]
    rfl
  · intro c hc
    have hcl := List.mem_of_mem_take hc
    have h3 : 3 ≤ c.length := by
      rw [greedyClusters_eq_specGreedy _ _ _ _ [] [] [] (fun _ => Iff.rfl),
        List.nil_append] at hcl
      exact specGreedy_min_length _ _ _ _ [] c hcl
    have hnel : c.map (cityOf fs) ≠ [] := by
      intro hh
      rw [List.map_eq_nil_iff] at hh
      subst hh
      simp at h3
    exact dominantCity_is_lex_min_mode _ hnel

/-- Six facilities at consecutive mile marks 0..5: every pair is within 10
miles, so the first seed absorbs all six into one cluster; the first three
members are in city "Zed", the last three in city "Ame". -/
def dC6 : Nat → Nat → ℚ := tableD
  [[0, 1, 2, 3, 4, 5],
   [1, 0, 1, 2, 3, 4],
   [2, 1, 0, 1, 2, 3],
   [3, 2, 1, 0, 1, 2],
   [4, 3, 2, 1, 0, 1],
   [5, 4, 3, 2, 1, 0]]

def fsC6 : List Facility :=
  [{ ftype := "Hospital", city := "Zed" }, { ftype := "Hospital", city := "Zed" },
   { ftype := "Hospital", city := "Zed" }, { ftype := "RHC", city := "Ame" },
   { ftype := "RHC", city := "Ame" }, { ftype := "RHC", city := "Ame" }]

/-- C6, counterexample: the single surviving cluster has the city lists
tied three against three; the claim's tie-break (first encountered in
member iteration order) picks "Zed", but the code (`mode()[0]`, pandas
modes sorted ascending) reports "Ame". -/
theorem dominant_city_tiebreak_counterexample :
    (analyze fsC6 dC6).map (fun r => r.clusters) = some [[0, 1, 2, 3, 4, 5]] ∧
    ([0, 1, 2, 3, 4, 5].map (cityOf fsC6)) = ["Zed", "Zed", "Zed", "Ame", "Ame", "Ame"] ∧
    (analyze fsC6 dC6).map (fun r => r.cluster_cities) = some ["Ame"] ∧
    dominantCitySpec ["Zed", "Zed", "Zed", "Ame", "Ame", "Ame"] = "Zed" ∧
    ("Ame" : String) ≠ "Zed" :=
  ⟨by decide, by decide, by decide, by decide, by decide⟩

theorem dominant_city_is_mode_with_lex_tiebreak_witness :
    (analyze fsC6 dC6).map (fun r => r.cluster_cities)
      = some (((greedyClusters (distMatrix dC6 fsC6.length) consolidationRadius fsC6.length
          (seedList (fun i => overlapsCount (distMatrix dC6 fsC6.length) 20 fsC6.length i)
            fsC6.length) [] []).take 5).map (fun c => dominantCity (c.map (cityOf fsC6)))) ∧
    ∀ c ∈ (greedyClusters (distMatrix dC6 fsC6.length) consolidationRadius fsC6.length
        (seedList (fun i => overlapsCount (distMatrix dC6 fsC6.length) 20 fsC6.length i)
          fsC6.length) [] []).take 5,
      dominantCity (c.map (cityOf fsC6)) ∈ c.map (cityOf fsC6) ∧
      (c.map (cityOf fsC6)).count (dominantCity (c.map (cityOf fsC6)))
        = maxFreq (c.map (cityOf fsC6)) ∧
      (∀ x ∈ c.map (cityOf fsC6),
        (c.map (cityOf fsC6)).count x
          ≤ (c.map (cityOf fsC6)).count (dominantCity (c.map (cityOf fsC6)))) ∧
      (∀ x ∈ c.map (cityOf fsC6),
        (c.map (cityOf fsC6)).count x
            = (c.map (cityOf fsC6)).count (dominantCity (c.map (cityOf fsC6))) →
          strLtB x (dominantCity (c.map (cityOf fsC6))) = false) :=
  dominant_city_is_mode_with_lex_tiebreak fsC6 dC6 (by decide)

/-- C9, counterexample: on the empty facility list the analysis does not
complete: `pd.DataFrame([])` has no columns, so selecting the coordinate
columns at line 121 raises a `KeyError`; the run errors out instead of
producing a trivial output. -/
theorem empty_input_errors_counterexample :
    analyze [] (fun _ _ => 0) = none := rfl

/-- C9, amended: for a single-facility input the analysis completes with
neighbor count 0, redundancy score 0, no clusters and no cluster cities;
for the empty input the script raises (`analyze` returns `none`). -/
theorem degenerate_input_trivial_output (f : Facility) (d : Nat → Nat → ℚ) :
    (analyze [f] d).map (fun r => r.overlaps) = some [0] ∧
    (analyze [f] d).map (fun r => r.redundancy_score) = some 0 ∧
    (analyze [f] d).map (fun r => r.clusters) = some [] ∧
    (analyze [f] d).map (fun r => r.cluster_cities) = some [] ∧
    (analyze [f] d).map (fun r => r.top_redundant) = some [0] ∧
    analyze [] d = none := by
  refine ⟨?_, ?_, ?_, ?_, ?_, rfl⟩
  · rfl
  · show some (redundancyScore (distMatrix d 1) 1) = some 0
    rw [redundancyScore]
    norm_num
    rfl
  · rfl
  · rfl
  · rfl

/-- C8: evaluation at the failing input of the claim — a Hospital (and
likewise an FQHC) record with NaN latitude and nonzero longitude passes
its inclusion filter, because Python `nan != 0` evaluates to `True`; only
the RHC filter, which additionally tests `pd.isna`, rejects it. -/
theorem nan_coordinates_pass_hospital_and_fqhc_filters :
    hospitalAccepts { lat := FVal.nan, lon := FVal.num 1 } = true ∧
    fqhcAccepts { lat := FVal.nan, lon := FVal.num 1 } = true ∧
    FVal.isna FVal.nan = true ∧
    rhcAccepts { lat := FVal.nan, lon := FVal.num 1 } = false :=
  ⟨by decide, by decide, by decide, by decide⟩

/-- C10: any record with latitude exactly 0 or longitude exactly 0 is
excluded by all three per-category inclusion filters — the test `lat != 0
and lon != 0` requires each coordinate to be individually non-zero, which
is strictly stronger than rejecting only the (0,0) pair. -/
theorem zero_coordinate_always_rejected (r : RawRecord)
    (h : r.lat = FVal.num 0 ∨ r.lon = FVal.num 0) :
    hospitalAccepts r = false ∧ rhcAccepts r = false ∧ fqhcAccepts r = false := by
  have hz : r.lat.pyNeZero = false ∨ r.lon.pyNeZero = false := by
    rcases h with h | h
    · left
      rw [h]
      simp [FVal.pyNeZero]
    · right
      rw [h]
      simp [FVal.pyNeZero]
  rcases hz with h2 | h2 <;>
    simp [hospitalAccepts, rhcAccepts, fqhcAccepts, h2]

theorem zero_coordinate_always_rejected_witness :
    hospitalAccepts { lat := FVal.num 0, lon := FVal.num 5 } = false ∧
    rhcAccepts { lat := FVal.num 0, lon := FVal.num 5 } = false ∧
    fqhcAccepts { lat := FVal.num 0, lon := FVal.num 5 } = false :=
  zero_coordinate_always_rejected { lat := FVal.num 0, lon := FVal.num 5 } (Or.inl rfl)
